import Mathlib

/-!
# Verification of the split-or-die workspace scanner core

Shallow embedding of the exclusion-aware workspace scanner of the
`split-or-die` VS Code extension (sources: `src/extension.ts` — the
monolithic variant — and the modular variant `state.ts`, `extensions.ts`,
`exclusions.ts`, `scan.ts`, `config.ts`, `types.ts`).

Conventions of the embedding:
* JS strings are Lean `String`s; character-level operations are written
  over `String.data : List Char`.
* JS `Map`/`Set` are association lists / lists with first-insertion
  de-duplication, mirroring JS insertion-order semantics.
* Host primitives (`vscode.workspace.fs.stat`, `readFile`,
  `findFiles`, `Uri.parse`) are modelled as data already attached to a
  file/document record (`statSize`, `readLines`) or passed as an
  explicit function parameter (`parse` for `vscode.Uri.parse(..).fsPath`,
  with `none` modelling a parse exception).
* JS number arithmetic in `estimateLines` is modelled over `ℚ`; for the
  byte counts in scope the JS double computations are exact (divisions
  by powers of two and small integer products), so the rational model is
  faithful.
* We model the posix platform (`process.platform !== 'win32'`), where
  `path` is `path.posix` and `path.sep = "/"`.
-/

namespace SplitOrDie

/-! ## String primitives (models of Node/JS library functions) -/

/-- Model of `String.prototype.toLowerCase` (ASCII case folding; the
inputs appearing in this development are ASCII). -/
def toLowerJs (s : String) : String := ⟨s.data.map Char.toLower⟩

/-- Whitespace recognised by the model of `String.prototype.trim`
(ASCII subset, sufficient for the inputs considered here). -/
def jsWhitespace (c : Char) : Bool :=
  c = ' ' || c = '\t' || c = '\n' || c = '\r'

/-- Model of `String.prototype.trim`. -/
def jsTrim (s : String) : String :=
  ⟨((s.data.dropWhile jsWhitespace).reverse.dropWhile jsWhitespace).reverse⟩

/-- Model of `.replace(/^\./, '')`: strip a single leading dot. -/
def stripLeadingDot (s : String) : String :=
  match s.data with
  | '.' :: rest => ⟨rest⟩
  | _ => s

/-- Model of `String.prototype.startsWith`. -/
def jsStartsWith (s pre : String) : Bool := pre.data.isPrefixOf s.data

/-- Model of the regex test `/^file:/i` used by `resolveFsPath`. -/
def startsWithFileCI (s : String) : Bool :=
  (s.data.take 5).map Char.toLower = ['f', 'i', 'l', 'e', ':']

/-! ## Model of `path.posix` (Node `path` module on non-win32) -/

/-- Split a character list on `'/'` (model of splitting a path string
on the posix separator, as `path.posix.normalize` does). -/
def splitOnSlash : List Char → List (List Char)
  | [] => [[]]
  | c :: rest =>
    let r := splitOnSlash rest
    if c = '/' then [] :: r
    else
      match r with
      | [] => [[c]]
      | s :: ss => (c :: s) :: ss

/-- Rejoin segments with `'/'`. -/
def joinSlash : List (List Char) → List Char
  | [] => []
  | [s] => s
  | s :: rest => s ++ '/' :: joinSlash rest

/-- Segment resolution of Node's `normalizeString`: empty and `.`
segments are dropped; `..` pops the previous segment, or is retained
(relative paths, `allowAboveRoot`) / dropped (absolute paths) when there
is nothing to pop. The accumulator is kept reversed. -/
def normSegsAux (allowAboveRoot : Bool) (acc : List (List Char)) :
    List (List Char) → List (List Char)
  | [] => acc.reverse
  | s :: rest =>
    if s = [] ∨ s = ['.'] then normSegsAux allowAboveRoot acc rest
    else if s = ['.', '.'] then
      match acc with
      | [] => normSegsAux allowAboveRoot (if allowAboveRoot then [['.', '.']] else []) rest
      | t :: acc' =>
        if t = ['.', '.'] then
          normSegsAux allowAboveRoot (if allowAboveRoot then ['.', '.'] :: t :: acc' else t :: acc') rest
        else normSegsAux allowAboveRoot acc' rest
    else normSegsAux allowAboveRoot (s :: acc) rest

/-- Model of Node `path.posix.normalize`: empty input yields `"."`;
otherwise `.`/`..`/empty segments are resolved and — exactly as in
Node — a trailing separator of the input is preserved on the output. -/
def pathNormalize (p : String) : String :=
  match h : p.data with
  | [] => "."
  | c :: rest =>
    let isAbs := c = '/'
    let trailing := (c :: rest).getLast (by simp) = '/'
    let segs := normSegsAux (!isAbs) [] (splitOnSlash (c :: rest))
    let body := joinSlash segs
    if body = [] then
      if isAbs then "/" else if trailing then "./" else "."
    else
      let body' := if trailing then body ++ ['/'] else body
      if isAbs then ⟨'/' :: body'⟩ else ⟨body'⟩

/-- Model of Node `path.posix.basename`: the last nonempty segment
(trailing separators ignored). -/
def basename (p : String) : String :=
  match ((splitOnSlash p.data).filter (fun s => s ≠ [])).getLast? with
  | some s => ⟨s⟩
  | none => ""

/-- Index of the last `'.'` in a character list, if any. -/
def lastDotIdx (cs : List Char) : Option Nat :=
  match cs.reverse.findIdx? (· = '.') with
  | none => none
  | some k => some (cs.length - 1 - k)

/-- Model of Node `path.posix.extname`: the suffix of the basename from
its last dot, empty when the basename has no dot, when its only dot is
the leading character (a dotfile such as `.env`), or when the basename
is `".."`. -/
def extname (p : String) : String :=
  let base := basename p
  if base = ".." then ""
  else
    match lastDotIdx base.data with
    | none => ""
    | some j => if j = 0 then "" else ⟨base.data.drop j⟩

/-! ## Association-list model of JS `Map` and `Set` -/

/-- JS `Map.prototype.get`. -/
def lookupKey {α : Type} (m : List (String × α)) (k : String) : Option α :=
  (m.find? (fun p => p.1 = k)).map (·.2)

/-- JS `Map.prototype.delete` (keyed removal). -/
def deleteKey {α : Type} (m : List (String × α)) (k : String) : List (String × α) :=
  m.filter (fun p => p.1 ≠ k)

/-- JS `Map.prototype.set`: replace an existing binding in place, else
append, preserving insertion order. -/
def setKey {α : Type} (m : List (String × α)) (k : String) (v : α) : List (String × α) :=
  if m.any (fun p => p.1 = k) then m.map (fun p => if p.1 = k then (k, v) else p)
  else m ++ [(k, v)]

/-- JS `new Set(list)` insertion-order contents: de-duplication keeping
first occurrences. -/
def jsSetDedupAux (seen : List String) : List String → List String
  | [] => []
  | x :: xs =>
    if seen.contains x then jsSetDedupAux seen xs
    else x :: jsSetDedupAux (x :: seen) xs

/-- The member list of `new Set(l)`. -/
def jsSetDedup (l : List String) : List String := jsSetDedupAux [] l

/-! ## Data model (`types.ts`, `extension.ts`) -/

/-- `SplitOrDieConfig` from `types.ts`/`extension.ts`. `sizeThresholdKb`
is modelled as `ℕ` (the spec's SizeThreshold is a positive integer). -/
structure SplitOrDieConfig where
  enabled : Bool
  sizeThresholdKb : ℕ
  excludeGlobs : List String
  excludeExtensions : List String
  runOnStartup : Bool
  runOnSave : Bool
  deriving DecidableEq

/-- `ScanEntry` from `types.ts`: `uri` is the entry's uri rendered as a
string (`uri.toString()`); `lineCount` is a JS number, modelled in `ℚ`
because the estimate path computes it with non-integer arithmetic. -/
structure ScanEntry where
  uri : String
  size : ℕ
  lineCount : ℚ
  deriving DecidableEq

/-- `ExclusionState` from `types.ts`/`extension.ts`; JS `Set`s become
member lists (insertion order). -/
structure ExclusionState where
  excludeExtensions : List String
  excludedFolderSet : List String
  excludedFileSet : List String
  excludedFolders : List String
  excludedFiles : List String
  excludeGlob : Option String
  deriving DecidableEq

/-- A candidate file produced by the host's `findFiles` enumeration,
carrying the outcomes of the host I/O calls the scanner performs on it:
`statSize` is the `safeStat` result (`none` = stat threw) and
`readLines` the `readLineCount` result (`none` = read threw). -/
structure FileInfo where
  key : String
  fsPath : String
  statSize : Option ℕ
  readLines : Option ℕ
  deriving DecidableEq

/-- A saved `vscode.TextDocument` as seen by `checkDocument`:
`hasWorkspaceFolder` is whether `vscode.workspace.getWorkspaceFolder`
finds an owning root, `statSize` the `safeStat` result on its uri, and
`lineCount` the editor's `document.lineCount`. -/
structure Document where
  scheme : String
  key : String
  fsPath : String
  hasWorkspaceFolder : Bool
  statSize : Option ℕ
  lineCount : ℕ
  deriving DecidableEq

/-- The two keyed sinks mutated by `checkDocument`: the diagnostics
collection (value: the `(size, lineCount)` pair passed to
`createDiagnostic`) and the `scanEntries` result map. -/
structure CheckState where
  diagnostics : List (String × ℕ × ℚ)
  scanEntries : List (String × ScanEntry)
  deriving DecidableEq

/-! ## `state.ts` -/

/-- `normalizeFsPath` from `state.ts`: `path.normalize`, lowercased on
win32 only. We model the posix platform, where it is exactly
`path.posix.normalize`. -/
def normalizeFsPath (fsPath : String) : String := pathNormalize fsPath

/-- `addUniquePath` from `state.ts`: append unless some entry already
normalizes to the same path. -/
def addUniquePath (entries : List String) (fsPath : String) : List String :=
  let normalized := normalizeFsPath fsPath
  if entries.any (fun entry => normalizeFsPath entry = normalized) then entries
  else entries ++ [fsPath]

/-- `resolveFsPath` from `state.ts`. `vscode.Uri.parse(value).fsPath` is
host functionality, passed in as `parse`; `parse value = none` models
the `catch` branch (parse threw), which falls back to the literal
string. -/
def resolveFsPath (parse : String → Option String) (value : String) : String :=
  if startsWithFileCI value then (parse value).getD value else value

/-- The list transformation performed by `removeExcludedFolder` in
`state.ts` on the persisted excluded-folder list (the
`workspaceState` read/update plumbing is the host's). -/
def removeExcludedFolderL (parse : String → Option String)
    (folders : List String) (uriValue : String) : List String :=
  let targetPath := resolveFsPath parse uriValue
  folders.filter (fun entry => normalizeFsPath entry ≠ normalizeFsPath targetPath)

/-- The list transformation performed by `removeExcludedFile` in
`state.ts` on the persisted excluded-file list. -/
def removeExcludedFileL (parse : String → Option String)
    (files : List String) (uriValue : String) : List String :=
  let targetPath := resolveFsPath parse uriValue
  files.filter (fun entry => normalizeFsPath entry ≠ normalizeFsPath targetPath)

/-! ## `extensions.ts` (modular) and the same functions in `extension.ts` -/

/-- `normalizeExtensions`: trim, strip one leading dot, lowercase, drop
empties (`filter(Boolean)`), collect into a `Set`. Identical in
`extension.ts` and `extensions.ts`. -/
def normalizeExtensions (extensions : List String) : List String :=
  jsSetDedup ((extensions.map
    (fun ext => toLowerJs (stripLeadingDot (jsTrim ext)))).filter (fun s => s ≠ ""))

/-- The character class `[a-z0-9._-]` of `normalizeExtensionInput`. -/
def extCharAllowed (c : Char) : Bool :=
  c.isLower || c.isDigit || c = '.' || c = '_' || c = '-'

/-- `normalizeExtensionInput`: like one step of `normalizeExtensions`
but rejecting (returning `null`) the empty result and any character
outside `[a-z0-9._-]`. Identical in `extension.ts` and
`extensions.ts`. -/
def normalizeExtensionInput (value : String) : Option String :=
  let trimmed := toLowerJs (stripLeadingDot (jsTrim value))
  if trimmed = "" then none
  else if trimmed.data.all extCharAllowed then some trimmed
  else none

/-- `normalizeExtensionList`: the set contents, sorted. -/
def normalizeExtensionList (values : List String) : List String :=
  (normalizeExtensions values).mergeSort (fun a b => a ≤ b)

end SplitOrDie

namespace SplitOrDie.Extension

/-- `shouldSkipExtension` as defined in the monolithic
`src/extension.ts`: extension from `path.extname`, lowercased,
dot-stripped; an empty extension never matches. (No dotfile branch in
this variant.) -/
def shouldSkipExtension (filePath : String) (excluded : List String) : Bool :=
  let ext := stripLeadingDot (toLowerJs (extname filePath))
  if ext = "" then false
  else excluded.contains ext

end SplitOrDie.Extension

namespace SplitOrDie.Extensions

/-- `shouldSkipExtension` as defined in the modular `extensions.ts`:
same as the monolithic variant, except that when the basename has no
extension but is a dotfile (leading dot, length > 1), the name after
the dot is matched against the excluded set. -/
def shouldSkipExtension (filePath : String) (excluded : List String) : Bool :=
  let ext := stripLeadingDot (toLowerJs (extname filePath))
  if ext = "" then
    let base := toLowerJs (basename filePath)
    if jsStartsWith base "." ∧ 1 < base.data.length then
      let dotName : String := ⟨base.data.drop 1⟩
      excluded.contains dotName
    else false
  else excluded.contains ext

end SplitOrDie.Extensions

namespace SplitOrDie

/-! ## `exclusions.ts` / the same functions in `extension.ts` -/

/-- `DEFAULT_EXCLUDE_FOLDERS` from `extension.ts`/`constants`. -/
def DEFAULT_EXCLUDE_FOLDERS : List String :=
  ["node_modules", ".git", "dist", "build", ".svelte-kit", ".vite",
   "coverage", "__snapshots__", "paraglide"]

/-- `DEFAULT_EXCLUDE_GLOBS`. -/
def DEFAULT_EXCLUDE_GLOBS : List String :=
  DEFAULT_EXCLUDE_FOLDERS.map (fun name => "**/" ++ name ++ "/**")

/-- `buildExcludeGlob`: trim, drop empties, de-duplicate preserving
first-seen order; none / the single pattern / a brace alternation. -/
def buildExcludeGlob (patterns : List String) : Option String :=
  let unique := jsSetDedup ((patterns.map jsTrim).filter (fun s => s ≠ ""))
  match unique with
  | [] => none
  | [p] => some p
  | _ => some ("\x7b" ++ String.intercalate "," unique ++ "\x7d")

/-- `buildExclusionState` from `exclusions.ts`/`extension.ts`; the
persisted folder/file lists read from `workspaceState` are passed in. -/
def buildExclusionState (excludedFolders excludedFiles : List String)
    (config : SplitOrDieConfig) : ExclusionState :=
  { excludeExtensions := normalizeExtensions config.excludeExtensions
    excludedFolderSet := jsSetDedup (excludedFolders.map normalizeFsPath)
    excludedFileSet := jsSetDedup (excludedFiles.map normalizeFsPath)
    excludedFolders := excludedFolders
    excludedFiles := excludedFiles
    excludeGlob := buildExcludeGlob (DEFAULT_EXCLUDE_GLOBS ++ config.excludeGlobs) }

/-- `isExplicitlyExcluded` (identical in `exclusions.ts` and
`extension.ts`): exact member of the excluded-file set, or equal to /
strictly inside (`startsWith(folder + path.sep)`) an excluded folder.
`path.sep = "/"` on the modelled posix platform. -/
def isExplicitlyExcluded (filePath : String) (exclusion : ExclusionState) : Bool :=
  let normalized := normalizeFsPath filePath
  if exclusion.excludedFileSet.contains normalized then true
  else exclusion.excludedFolderSet.any (fun folder =>
    normalized = folder || jsStartsWith normalized (folder ++ "/"))

/-! ## `scan.ts` / the same functions in `extension.ts` -/

/-- JS `Math.round`: half-up rounding (`⌊x + 1/2⌋`). -/
def jsRound (q : ℚ) : ℤ := ⌊q + 1 / 2⌋

/-- `estimateLines`: `(bytes / 1024) * 25` rounded to the nearest 50,
floor 1. For byte counts in range the JS double arithmetic is exact, so
the computation is modelled over `ℚ`. -/
def estimateLines (bytes : ℚ) : ℚ :=
  let estimated := bytes / 1024 * 25
  let rounded := jsRound (estimated / 50) * 50
  max 1 rounded

/-- `countLines`: number of line-feed bytes plus one for nonempty data,
zero for empty data. -/
def countLines (data : List ℕ) : ℕ :=
  if data.length = 0 then 0
  else 1 + data.countP (fun byte => byte = 10)

/-- The per-folder body of `scanWorkspace` (identical in `scan.ts` and
`extension.ts`): `files` is the host `findFiles` enumeration under the
compiled exclude glob; candidates failing the extension check or the
explicit-exclusion predicate are dropped, the rest are statted, and
each file strictly larger than `thresholdBytes` is inserted with its
read line count, or with `estimateLines` of its size when the read
fails. (The 50-file batching only schedules the stat I/O; the entries
are inserted in candidate order exactly as in this fold.) -/
def scanWorkspace (exclusion : ExclusionState) (thresholdBytes : ℕ)
    (files : List FileInfo) : List (String × ScanEntry) :=
  let candidates := files.filter (fun uri =>
    !(Extension.shouldSkipExtension uri.fsPath exclusion.excludeExtensions) &&
    !(isExplicitlyExcluded uri.fsPath exclusion))
  candidates.foldl (fun entries uri =>
    match uri.statSize with
    | none => entries
    | some size =>
      if size ≤ thresholdBytes then entries
      else
        let lineCount : ℚ := match uri.readLines with
          | some n => (n : ℚ)
          | none => estimateLines (size : ℚ)
        setKey entries uri.key ⟨uri.key, size, lineCount⟩) []

/-- `checkDocument` (identical in `scan.ts` and `extension.ts`),
side-effecting the diagnostics collection and the `scanEntries` map,
here returned as the updated `CheckState`. -/
def checkDocument (document : Document) (config : SplitOrDieConfig)
    (exclusion : ExclusionState) (st : CheckState) : CheckState :=
  if document.scheme ≠ "file" then st
  else if !document.hasWorkspaceFolder then st
  else
    let uriKey := document.key
    if Extension.shouldSkipExtension document.fsPath exclusion.excludeExtensions then
      { diagnostics := deleteKey st.diagnostics uriKey
        scanEntries := deleteKey st.scanEntries uriKey }
    else if isExplicitlyExcluded document.fsPath exclusion then
      { diagnostics := deleteKey st.diagnostics uriKey
        scanEntries := deleteKey st.scanEntries uriKey }
    else
      match document.statSize with
      | none => st
      | some size =>
        let thresholdBytes := max 1 config.sizeThresholdKb * 1024
        if size ≤ thresholdBytes then
          { diagnostics := deleteKey st.diagnostics uriKey
            scanEntries := deleteKey st.scanEntries uriKey }
        else
          { diagnostics := setKey st.diagnostics uriKey (size, (document.lineCount : ℚ))
            scanEntries := setKey st.scanEntries uriKey
              ⟨uriKey, size, (document.lineCount : ℚ)⟩ }

/-! ## `runWorkspaceScan` generation discipline (`extension.ts` 83–113) -/

/-- The module-level mutable state owned by `activate`: the `scanToken`
generation counter, the `scanEntries` result map and the diagnostics
collection. -/
structure Session where
  scanToken : ℕ
  scanEntries : List (String × ScanEntry)
  diagnostics : List (String × ℕ × ℚ)
  deriving DecidableEq

/-- The synchronous prefix of `runWorkspaceScan`: `const runId =
++scanToken` — the new run captures the incremented token. -/
def startScan (s : Session) : ℕ × Session :=
  (s.scanToken + 1, { s with scanToken := s.scanToken + 1 })

/-- The completion of `runWorkspaceScan` after `await scanWorkspace`:
`if (runId !== scanToken) return;` — otherwise clear and republish both
the result map and the diagnostics from the scan's entries
(`createDiagnostic(value.size, value.lineCount)` per entry). -/
def finishScan (runId : ℕ) (entries : List (String × ScanEntry)) (s : Session) : Session :=
  if runId ≠ s.scanToken then s
  else
    { s with
      scanEntries := entries
      diagnostics := entries.map (fun e => (e.1, e.2.size, e.2.lineCount)) }

/-- An `ExclusionState` with nothing excluded (used to exercise the
threshold logic of a file that passes every filter). -/
def emptyExclusion : ExclusionState :=
  { excludeExtensions := []
    excludedFolderSet := []
    excludedFileSet := []
    excludedFolders := []
    excludedFiles := []
    excludeGlob := none }

/-- Modelled from the spec (§4.4), for refinement comparison with the
code's `estimateLines`: `max(1, round((sizeBytes/1024 * 25) / 50) * 50)`
— assume ~25 lines per KB, rounded to the nearest 50, floor 1. -/
def specLineEstimate (sizeBytes : ℚ) : ℚ :=
  max 1 ((jsRound (sizeBytes / 1024 * 25 / 50) : ℚ) * 50)

/-- The bulk scanner's verdict on one stat-able file of `size` bytes
that passes every filter, at the threshold `runWorkspaceScan` computes
from `sizeThresholdKb = kb`: whether `scanWorkspace` enters it into the
result map. -/
def scanReports (kb size : ℕ) : Bool :=
  (lookupKey (scanWorkspace emptyExclusion (max 1 kb * 1024)
    [⟨"file:///w/a.ts", "/w/a.ts", some size, some 7⟩]) "file:///w/a.ts").isSome

/-- The incremental updater's verdict on the same file: whether
`checkDocument` leaves an entry for it in the result map, starting from
an empty state. -/
def checkReports (kb size : ℕ) : Bool :=
  (lookupKey (checkDocument ⟨"file", "file:///w/a.ts", "/w/a.ts", true, some size, 7⟩
    ⟨true, kb, [], [], true, true⟩ emptyExclusion ⟨[], []⟩).scanEntries
    "file:///w/a.ts").isSome

/-! ## Helper lemmas about the `Map`/`Set` models -/

theorem lookupKey_deleteKey_self {α : Type} (m : List (String × α)) (k : String) :
    lookupKey (deleteKey m k) k = none := by
  unfold lookupKey deleteKey
  rw [Option.map_eq_none', List.find?_eq_none]
  intro x hx
  have h2 := (List.mem_filter.mp hx).2
  simp only [ne_eq, decide_not, Bool.not_eq_eq_eq_not, Bool.not_true, decide_eq_false_iff_not] at h2
  simpa using h2

theorem lookupKey_setKey_self {α : Type} (m : List (String × α)) (k : String) (v : α) :
    lookupKey (setKey m k v) k = some v := by
  unfold setKey
  split
  case isTrue hany =>
    induction m with
    | nil => simp at hany
    | cons p m ih =>
      by_cases h : p.1 = k
      · simp [lookupKey, h]
      · simp only [List.any_cons, Bool.or_eq_true, decide_eq_true_eq] at hany
        rcases hany with h' | h'
        · exact absurd h' h
        · simpa [lookupKey, h] using ih h'
  case isFalse hany =>
    induction m with
    | nil => simp [lookupKey]
    | cons p m ih =>
      simp only [List.any_cons, Bool.or_eq_true, decide_eq_true_eq, not_or] at hany
      simpa [lookupKey, hany.1] using ih (by simpa using hany.2)

theorem mem_jsSetDedupAux (l : List String) (seen : List String) (x : String)
    (h : x ∈ jsSetDedupAux seen l) : x ∈ l := by
  induction l generalizing seen with
  | nil => simp [jsSetDedupAux] at h
  | cons y ys ih =>
    unfold jsSetDedupAux at h
    split at h
    · exact List.mem_cons_of_mem _ (ih _ h)
    · rcases List.mem_cons.mp h with h1 | h1
      · exact h1 ▸ List.mem_cons_self _ _
      · exact List.mem_cons_of_mem _ (ih _ h1)

theorem mem_jsSetDedup (l : List String) (x : String)
    (h : x ∈ jsSetDedup l) : x ∈ l :=
  mem_jsSetDedupAux l [] x h

/-! ## Helper lemmas about the scanner and the incremental updater -/

/-- A single candidate file that passes both filters is classified by
`scanWorkspace` purely by its stat result against the threshold. -/
theorem scanWorkspace_singleton (ex : ExclusionState) (t : ℕ) (f : FileInfo)
    (h1 : Extension.shouldSkipExtension f.fsPath ex.excludeExtensions = false)
    (h2 : isExplicitlyExcluded f.fsPath ex = false) :
    scanWorkspace ex t [f] =
      match f.statSize with
      | none => []
      | some size =>
        if size ≤ t then []
        else [(f.key, ⟨f.key, size,
          match f.readLines with
          | some n => (n : ℚ)
          | none => estimateLines (size : ℚ)⟩)] := by
  unfold scanWorkspace
  simp only [List.filter, h1, h2, Bool.not_false, Bool.and_self, List.foldl]
  cases f.statSize with
  | none => rfl
  | some size =>
    by_cases hs : size ≤ t
    · simp [hs]
    · simp [hs, setKey]

/-- `checkDocument` on a document that passes the scheme, root and
exclusion guards and whose stat succeeds: pure threshold comparison. -/
theorem checkDocument_pass (doc : Document) (cfg : SplitOrDieConfig)
    (ex : ExclusionState) (st : CheckState) (size : ℕ)
    (hs : doc.scheme = "file") (hf : doc.hasWorkspaceFolder = true)
    (h1 : Extension.shouldSkipExtension doc.fsPath ex.excludeExtensions = false)
    (h2 : isExplicitlyExcluded doc.fsPath ex = false)
    (hst : doc.statSize = some size) :
    checkDocument doc cfg ex st =
      if size ≤ max 1 cfg.sizeThresholdKb * 1024 then
        { diagnostics := deleteKey st.diagnostics doc.key
          scanEntries := deleteKey st.scanEntries doc.key }
      else
        { diagnostics := setKey st.diagnostics doc.key (size, (doc.lineCount : ℚ))
          scanEntries := setKey st.scanEntries doc.key
            ⟨doc.key, size, (doc.lineCount : ℚ)⟩ } := by
  unfold checkDocument
  simp [hs, hf, h1, h2, hst]

/-! ## Claim theorems -/

/-- C1: for every configured threshold (a positive number of kilobytes)
and every measured file size, both the bulk scanner `scanWorkspace` and
the incremental updater `checkDocument` report the file as oversized
exactly when its size is strictly greater than
`thresholdBytes = max(1, thresholdKb) * 1024`; a file of exactly
`thresholdKb * 1024` bytes is not reported, one byte larger is
reported, and the two paths use the same comparison. -/
theorem scan_and_check_threshold_boundary (kb size : ℕ) (hkb : 1 ≤ kb) :
    (scanReports kb size = true ↔ kb * 1024 < size)
  ∧ (checkReports kb size = true ↔ kb * 1024 < size)
  ∧ (size = kb * 1024 → scanReports kb size = false ∧ checkReports kb size = false)
  ∧ (size = kb * 1024 + 1 → scanReports kb size = true ∧ checkReports kb size = true) := by
  have hmax : max 1 kb = kb := Nat.max_eq_right hkb
  have hscan : scanReports kb size = true ↔ kb * 1024 < size := by
    unfold scanReports
    rw [scanWorkspace_singleton emptyExclusion (max 1 kb * 1024)
      ⟨"file:///w/a.ts", "/w/a.ts", some size, some 7⟩
      (by show Extension.shouldSkipExtension "/w/a.ts" emptyExclusion.excludeExtensions = false
          decide)
      (by show isExplicitlyExcluded "/w/a.ts" emptyExclusion = false
          decide)]
    rw [hmax]
    by_cases hs : size ≤ kb * 1024
    · simp [hs, lookupKey, Nat.not_lt.mpr hs]
    · simp [hs, lookupKey, Nat.lt_of_not_le hs]
  have hcheck : checkReports kb size = true ↔ kb * 1024 < size := by
    unfold checkReports
    rw [checkDocument_pass ⟨"file", "file:///w/a.ts", "/w/a.ts", true, some size, 7⟩
      ⟨true, kb, [], [], true, true⟩ emptyExclusion ⟨[], []⟩ size
      rfl rfl
      (by show Extension.shouldSkipExtension "/w/a.ts" emptyExclusion.excludeExtensions = false
          decide)
      (by show isExplicitlyExcluded "/w/a.ts" emptyExclusion = false
          decide)
      rfl]
    dsimp only
    rw [hmax]
    by_cases hs : size ≤ kb * 1024
    · simp [hs, lookupKey_deleteKey_self, Nat.not_lt.mpr hs]
    · simp [hs, lookupKey_setKey_self, Nat.lt_of_not_le hs]
  refine ⟨hscan, hcheck, ?_, ?_⟩
  · intro hsz
    have hP : ¬ (kb * 1024 < size) := by omega
    exact ⟨Bool.eq_false_iff.mpr (fun hc => hP (hscan.mp hc)),
           Bool.eq_false_iff.mpr (fun hc => hP (hcheck.mp hc))⟩
  · intro hsz
    have hP : kb * 1024 < size := by omega
    exact ⟨hscan.mpr hP, hcheck.mpr hP⟩

/-- Witness for C1 at threshold 20 KB and size 20481 = 20·1024 + 1. -/
theorem scan_and_check_threshold_boundary_witness :
    scanReports 20 20481 = true ∧ checkReports 20 20481 = true :=
  (scan_and_check_threshold_boundary 20 20481 (by norm_num)).2.2.2 rfl

/-- C2 counterexample: on a stat error (`safeStat` returning null),
`checkDocument` returns without touching the result set, so a stale
entry for the document survives — the claim's "every early failure
removes any existing entry" is false for the stat-error (and scheme /
workspace-root) failures. -/
theorem checkDocument_stat_error_keeps_stale_entry :
    checkDocument ⟨"file", "file:///w/a.ts", "/w/a.ts", true, none, 3⟩
      ⟨true, 20, [], [], true, true⟩ emptyExclusion
      ⟨[("file:///w/a.ts", (999, 5))],
       [("file:///w/a.ts", ⟨"file:///w/a.ts", 99999, 5⟩)]⟩
    = ⟨[("file:///w/a.ts", (999, 5))],
       [("file:///w/a.ts", ⟨"file:///w/a.ts", 99999, 5⟩)]⟩
  ∧ lookupKey ([("file:///w/a.ts", (⟨"file:///w/a.ts", 99999, 5⟩ : ScanEntry))])
      "file:///w/a.ts" = some ⟨"file:///w/a.ts", 99999, 5⟩ :=
  ⟨rfl, rfl⟩

/-- C2 amended: of `checkDocument`'s early exits, the excluded-extension,
explicit-exclusion and size-at-or-below-threshold failures delete any
existing entry for the document's identity from the result set and the
diagnostics; the wrong-scheme, no-owning-workspace-root and stat-error
failures instead return with both sinks unchanged. -/
theorem checkDocument_early_exit (doc : Document) (cfg : SplitOrDieConfig)
    (ex : ExclusionState) (st : CheckState) :
    (doc.scheme = "file" → doc.hasWorkspaceFolder = true →
      (Extension.shouldSkipExtension doc.fsPath ex.excludeExtensions = true
        ∨ isExplicitlyExcluded doc.fsPath ex = true
        ∨ (∃ size, doc.statSize = some size ∧ size ≤ max 1 cfg.sizeThresholdKb * 1024)) →
      lookupKey (checkDocument doc cfg ex st).scanEntries doc.key = none
        ∧ lookupKey (checkDocument doc cfg ex st).diagnostics doc.key = none)
  ∧ ((doc.scheme ≠ "file" ∨ doc.hasWorkspaceFolder = false
        ∨ (Extension.shouldSkipExtension doc.fsPath ex.excludeExtensions = false
            ∧ isExplicitlyExcluded doc.fsPath ex = false
            ∧ doc.statSize = none)) →
      checkDocument doc cfg ex st = st) := by
  constructor
  · intro hs hf hfail
    have hres : (checkDocument doc cfg ex st).scanEntries = deleteKey st.scanEntries doc.key
        ∧ (checkDocument doc cfg ex st).diagnostics = deleteKey st.diagnostics doc.key := by
      rcases hfail with h1 | h2 | ⟨size, hst, hsz⟩
      · unfold checkDocument
        simp [hs, hf, h1]
      · unfold checkDocument
        by_cases h1 : Extension.shouldSkipExtension doc.fsPath ex.excludeExtensions
        · simp [hs, hf, h1]
        · simp [hs, hf, h1, h2]
      · by_cases h1 : Extension.shouldSkipExtension doc.fsPath ex.excludeExtensions
        · unfold checkDocument
          simp [hs, hf, h1]
        · by_cases h2 : isExplicitlyExcluded doc.fsPath ex
          · unfold checkDocument
            simp [hs, hf, h1, h2]
          · rw [checkDocument_pass doc cfg ex st size hs hf
              (by simpa using h1) (by simpa using h2) hst]
            simp [hsz]
    rw [hres.1, hres.2]
    exact ⟨lookupKey_deleteKey_self _ _, lookupKey_deleteKey_self _ _⟩
  · intro hfail
    rcases hfail with h | h | ⟨h1, h2, h3⟩
    · unfold checkDocument
      simp [h]
    · unfold checkDocument
      by_cases hs : doc.scheme = "file" <;> simp [hs, h]
    · unfold checkDocument
      by_cases hs : doc.scheme = "file"
      · by_cases hf : doc.hasWorkspaceFolder <;> simp [hs, hf, h1, h2, h3]
      · simp [hs]

/-- Witness for C2 (amended) on a saved file with an excluded
extension and an existing stale entry. -/
theorem checkDocument_early_exit_witness :
    lookupKey (checkDocument ⟨"file", "file:///w/n.md", "/w/n.md", true, some 50000, 9⟩
      ⟨true, 20, [], [], true, true⟩
      (buildExclusionState [] [] ⟨true, 20, [], ["md"], true, true⟩)
      ⟨[("file:///w/n.md", (999, 5))],
       [("file:///w/n.md", ⟨"file:///w/n.md", 99999, 5⟩)]⟩).scanEntries
      "file:///w/n.md" = none := by
  have h := (checkDocument_early_exit
    ⟨"file", "file:///w/n.md", "/w/n.md", true, some 50000, 9⟩
    ⟨true, 20, [], [], true, true⟩
    (buildExclusionState [] [] ⟨true, 20, [], ["md"], true, true⟩)
    ⟨[("file:///w/n.md", (999, 5))],
     [("file:///w/n.md", ⟨"file:///w/n.md", 99999, 5⟩)]⟩).1 rfl rfl
    (Or.inl (by decide))
  exact h.1

/-- C3 counterexample: `path.normalize` (hence `normalizeFsPath`)
preserves a trailing separator, so `/a/b/` and `/a/b` — the claim's own
example pair — do not normalize to the identical string, and a folder
stored as `/a/b/` is not removed by `removeExcludedFolder` with target
`/a/b`. -/
theorem normalizeFsPath_trailing_sep_counterexample :
    normalizeFsPath "/a/b/" ≠ normalizeFsPath "/a/b"
  ∧ removeExcludedFolderL (fun _ => none) ["/a/b/"] "/a/b" = ["/a/b/"] := by
  decide

/-- C3 amended: on the modelled posix platform, `normalizeFsPath`
identifies paths differing in redundant internal separators or in
`.`/`..` segments (so such variants match under the normalized
comparison used by `removeExcludedFolder`), but it preserves a trailing
separator: `/a/b/` keeps its trailing slash and therefore does not
match `/a/b`. -/
theorem normalizeFsPath_separator_behavior :
    normalizeFsPath "/a//b" = normalizeFsPath "/a/b"
  ∧ normalizeFsPath "/a/./b" = normalizeFsPath "/a/b"
  ∧ normalizeFsPath "/a/c/../b" = normalizeFsPath "/a/b"
  ∧ removeExcludedFolderL (fun _ => none) ["/a//b"] "/a/b" = []
  ∧ removeExcludedFolderL (fun _ => none) ["/a/./b"] "/a/b" = []
  ∧ normalizeFsPath "/a/b/" = "/a/b/"
  ∧ normalizeFsPath "/a/b/" ≠ normalizeFsPath "/a/b" := by
  decide

/-- C4: when the excluded-folders set contains the normalized form of
`/root/foo`, `isExplicitlyExcluded` holds for `/root/foo` itself and
for every path strictly inside it such as `/root/foo/bar.ts`; a path
like `/root/foo2/bar.ts`, sharing the string prefix without a
separator boundary, is not excluded when that folder is the only
exclusion. -/
theorem isExplicitlyExcluded_boundary (ex : ExclusionState)
    (h : normalizeFsPath "/root/foo" ∈ ex.excludedFolderSet) :
    isExplicitlyExcluded "/root/foo" ex = true
  ∧ isExplicitlyExcluded "/root/foo/bar.ts" ex = true
  ∧ isExplicitlyExcluded "/root/foo2/bar.ts"
      ⟨[], [normalizeFsPath "/root/foo"], [], ["/root/foo"], [], none⟩ = false := by
  refine ⟨?_, ?_, by decide⟩
  · unfold isExplicitlyExcluded
    dsimp only
    split
    · rfl
    · exact List.any_eq_true.mpr ⟨normalizeFsPath "/root/foo", h, by decide⟩
  · unfold isExplicitlyExcluded
    dsimp only
    split
    · rfl
    · exact List.any_eq_true.mpr ⟨normalizeFsPath "/root/foo", h, by decide⟩

/-- Witness for C4 on the state whose folder set is exactly the
normalized `/root/foo`. -/
theorem isExplicitlyExcluded_boundary_witness :
    isExplicitlyExcluded "/root/foo"
      ⟨[], [normalizeFsPath "/root/foo"], [], ["/root/foo"], [], none⟩ = true
  ∧ isExplicitlyExcluded "/root/foo/bar.ts"
      ⟨[], [normalizeFsPath "/root/foo"], [], ["/root/foo"], [], none⟩ = true := by
  have h := isExplicitlyExcluded_boundary
    ⟨[], [normalizeFsPath "/root/foo"], [], ["/root/foo"], [], none⟩
    (by decide)
  exact ⟨h.1, h.2.1⟩

/-- C5 counterexample: for a path already present in the persisted
list, exclude (a no-op) followed by include (which filters the path
out) does not restore the pre-exclusion state — it ends with the path
removed. -/
theorem exclude_include_roundtrip_counterexample :
    removeExcludedFolderL (fun _ => none)
      (addUniquePath ["/a/b"] "/a/b") "/a/b" = []
  ∧ (["/a/b"] : List String) ≠ [] := by
  decide

/-- C5 amended: the toggles are idempotent set operations — adding an
already-present path and removing an absent path are no-ops — and
exclude-then-include restores the exact prior list provided no prior
entry already normalizes to the toggled path. -/
theorem exclude_include_roundtrip (parse : String → Option String)
    (l : List String) (p : String) :
    ((∀ e ∈ l, normalizeFsPath e ≠ normalizeFsPath p) → startsWithFileCI p = false →
      removeExcludedFolderL parse (addUniquePath l p) p = l)
  ∧ ((∃ e ∈ l, normalizeFsPath e = normalizeFsPath p) → addUniquePath l p = l)
  ∧ ((∀ e ∈ l, normalizeFsPath e ≠ normalizeFsPath (resolveFsPath parse p)) →
      removeExcludedFolderL parse l p = l) := by
  refine ⟨?_, ?_, ?_⟩
  · intro hnew hraw
    have hresolve : resolveFsPath parse p = p := by
      unfold resolveFsPath
      simp [hraw]
    have hadd : addUniquePath l p = l ++ [p] := by
      unfold addUniquePath
      rw [if_neg]
      simp only [List.any_eq_true, decide_eq_true_eq, not_exists]
      intro e
      intro hcontra
      exact hnew e hcontra.1 hcontra.2
    unfold removeExcludedFolderL
    rw [hresolve, hadd, List.filter_append]
    have hl : l.filter (fun entry =>
        decide (normalizeFsPath entry ≠ normalizeFsPath p)) = l :=
      List.filter_eq_self.mpr (fun e he => by simpa using hnew e he)
    have hp : ([p].filter (fun entry =>
        decide (normalizeFsPath entry ≠ normalizeFsPath p))) = [] := by
      simp
    rw [hl, hp, List.append_nil]
  · intro ⟨e, he, heq⟩
    unfold addUniquePath
    rw [if_pos]
    exact List.any_eq_true.mpr ⟨e, he, by simpa using heq⟩
  · intro hnone
    unfold removeExcludedFolderL
    exact List.filter_eq_self.mpr (fun e he => by simpa using hnone e he)

/-- Witness for C5 (amended): excluding then including `/a/b` over the
prior list `["/x"]` restores `["/x"]`. -/
theorem exclude_include_roundtrip_witness :
    removeExcludedFolderL (fun _ => none)
      (addUniquePath ["/x"] "/a/b") "/a/b" = ["/x"] :=
  (exclude_include_roundtrip (fun _ => none) ["/x"] "/a/b").1
    (by decide) (by decide)

/-- C6 counterexample: `shouldSkipExtension` as defined in the cited
monolithic `extension.ts` has no dotfile branch — `path.extname` of a
dotfile such as `.env` is empty, and an empty extension returns false
even when `env` is in the excluded set. -/
theorem shouldSkipExtension_dotfile_counterexample :
    Extension.shouldSkipExtension "/w/.env" ["env"] = false
  ∧ ("env" : String) ∈ (["env"] : List String) := by
  decide

/-- C6 amended: the dotfile rule holds for `shouldSkipExtension` as
defined in the modular `extensions.ts` (the variant the modular scanner
imports): when the final segment has no extension but its (lowercased)
basename starts with a dot and has length > 1, the name after the dot
is matched against the excluded set. The monolithic `extension.ts`
variant instead returns false for every such path. -/
theorem shouldSkipExtension_dotfile (filePath : String) (excluded : List String)
    (h1 : extname filePath = "")
    (h2 : jsStartsWith (toLowerJs (basename filePath)) "." = true)
    (h3 : 1 < (toLowerJs (basename filePath)).data.length) :
    Extensions.shouldSkipExtension filePath excluded
      = excluded.contains ⟨(toLowerJs (basename filePath)).data.drop 1⟩
  ∧ Extension.shouldSkipExtension filePath excluded = false := by
  have hempty : stripLeadingDot (toLowerJs (extname filePath)) = "" := by
    rw [h1]
    rfl
  constructor
  · unfold Extensions.shouldSkipExtension
    dsimp only
    rw [if_pos (by rw [hempty]), if_pos ⟨h2, h3⟩]
  · unfold Extension.shouldSkipExtension
    dsimp only
    rw [if_pos (by rw [hempty])]

/-- Witness for C6 (amended) on the dotfile `.env` with `env`
excluded. -/
theorem shouldSkipExtension_dotfile_witness :
    Extensions.shouldSkipExtension "/w/.env" ["env"] = true := by
  rw [(shouldSkipExtension_dotfile "/w/.env" ["env"]
    (by decide) (by decide) (by decide)).1]
  decide

/-- C7: `runWorkspaceScan`'s generation discipline. A completion whose
captured `runId` is smaller than the current `scanToken` (a newer scan
started in between) leaves the session — result set and diagnostics —
entirely unchanged; starting a scan increments the token; and the
completion carrying the current token publishes its entries into both
sinks. In particular, in the spec's scenario, after two starts the
first scan's completion is discarded and the second scan's completion
stands. -/
theorem scan_generation_guard (s : Session) (g : ℕ)
    (e₁ e₂ : List (String × ScanEntry)) (hstale : g < s.scanToken) :
    finishScan g e₁ s = s
  ∧ (startScan s).2.scanToken = s.scanToken + 1
  ∧ finishScan s.scanToken e₂ s =
      { s with scanEntries := e₂,
               diagnostics := e₂.map (fun e => (e.1, e.2.size, e.2.lineCount)) }
  ∧ finishScan (startScan s).1 e₁ (startScan (startScan s).2).2
      = (startScan (startScan s).2).2
  ∧ (finishScan (startScan (startScan s).2).1 e₂
      (startScan (startScan s).2).2).scanEntries = e₂ := by
  refine ⟨?_, rfl, ?_, ?_, ?_⟩
  · unfold finishScan
    rw [if_pos (Nat.ne_of_lt hstale)]
  · unfold finishScan
    rw [if_neg (by simp)]
  · unfold startScan finishScan
    dsimp only
    rw [if_pos (by omega)]
  · unfold startScan finishScan
    dsimp only
    rw [if_neg (by simp)]

/-- Witness for C7: a scan of generation 1 completing while the token
already stands at 2 publishes nothing. -/
theorem scan_generation_guard_witness :
    finishScan 1 [("k", ⟨"k", 3, 4⟩)] ⟨2, [], []⟩ = ⟨2, [], []⟩ :=
  (scan_generation_guard ⟨2, [], []⟩ 1 [("k", ⟨"k", 3, 4⟩)] [] (by norm_num)).1

/-- C8 counterexample: `normalizeExtensions` — the path by which
configured extensions reach the `ExclusionState` in
`buildExclusionState` — performs no character-class validation, so a
configured string with a character outside `[a-z0-9._-]` enters the
extension set. -/
theorem normalizeExtensions_charclass_counterexample :
    "a!b" ∈ (buildExclusionState [] [] ⟨true, 20, [], ["A!B"], true, true⟩).excludeExtensions
  ∧ ¬ ("a!b".data.all extCharAllowed = true) := by
  decide

/-- C8 amended: every member of the extension set built by
`buildExclusionState` is the nonempty trimmed, single-leading-dot-
stripped, lowercased form of some configured string — but no character
class is enforced on that path; the `[a-z0-9._-]` rejection applies
only to `normalizeExtensionInput`, the validator for interactively
added extensions. -/
theorem normalizeExtensions_members (folders files : List String)
    (cfg : SplitOrDieConfig) (e : String)
    (h : e ∈ (buildExclusionState folders files cfg).excludeExtensions) :
    e ≠ ""
  ∧ (∃ s ∈ cfg.excludeExtensions, e = toLowerJs (stripLeadingDot (jsTrim s)))
  ∧ (∀ v r, normalizeExtensionInput v = some r → r.data.all extCharAllowed = true) := by
  have h' := mem_jsSetDedup _ _ h
  have h2 := List.mem_filter.mp h'
  obtain ⟨s, hs, hmap⟩ := List.mem_map.mp h2.1
  refine ⟨by simpa using h2.2, ⟨s, hs, hmap.symm⟩, ?_⟩
  intro v r hr
  unfold normalizeExtensionInput at hr
  dsimp only at hr
  split at hr
  · exact absurd hr (by simp)
  · split at hr
    · cases hr
      assumption
    · exact absurd hr (by simp)

/-- Witness for C8 (amended) at the configured list `[" .LOG "]`,
whose set member is `"log"`. -/
theorem normalizeExtensions_members_witness :
    ("log" : String) ≠ ""
  ∧ (∃ s ∈ ([" .LOG "] : List String),
      "log" = toLowerJs (stripLeadingDot (jsTrim s))) := by
  have h := normalizeExtensions_members [] [] ⟨true, 20, [], [" .LOG "], true, true⟩
    "log" (by decide)
  exact ⟨h.1, h.2.1⟩

/-- C9: an oversized file whose content read fails during the
line-count pass is entered into the result set with the substituted
estimate `estimateLines(size)`; that estimate coincides with the spec's
formula `max(1, round((sizeBytes/1024 * 25) / 50) * 50)`, and at
102,400 bytes it evaluates to 2500. -/
theorem estimateLines_substituted (size tBytes : ℕ) (hover : tBytes < size) :
    scanWorkspace emptyExclusion tBytes [⟨"file:///w/a.ts", "/w/a.ts", some size, none⟩]
      = [("file:///w/a.ts", ⟨"file:///w/a.ts", size, estimateLines (size : ℚ)⟩)]
  ∧ (∀ b : ℚ, estimateLines b = specLineEstimate b)
  ∧ estimateLines 102400 = 2500 := by
  refine ⟨?_, ?_, ?_⟩
  · rw [scanWorkspace_singleton emptyExclusion tBytes
      ⟨"file:///w/a.ts", "/w/a.ts", some size, none⟩
      (by show Extension.shouldSkipExtension "/w/a.ts" emptyExclusion.excludeExtensions = false
          decide)
      (by show isExplicitlyExcluded "/w/a.ts" emptyExclusion = false
          decide)]
    dsimp only
    rw [if_neg (Nat.not_le.mpr hover)]
  · intro b
    unfold estimateLines specLineEstimate
    dsimp only
    push_cast
    rfl
  · unfold estimateLines jsRound
    dsimp only
    rw [show ((102400 : ℚ) / 1024 * 25 / 50 + 1 / 2) = 101 / 2 by norm_num]
    rw [show ⌊(101 / 2 : ℚ)⌋ = 50 by rw [Int.floor_eq_iff]; norm_num]
    norm_num

/-- Witness for C9: the spec's scenario — unreadable 102,400-byte file,
threshold 20 KB — yields the entry with estimated line count 2500. -/
theorem estimateLines_substituted_witness :
    scanWorkspace emptyExclusion 20480 [⟨"file:///w/a.ts", "/w/a.ts", some 102400, none⟩]
      = [("file:///w/a.ts", ⟨"file:///w/a.ts", 102400, 2500⟩)] := by
  have h := estimateLines_substituted 102400 20480 (by norm_num)
  rw [h.1]
  rw [show ((102400 : ℕ) : ℚ) = (102400 : ℚ) by norm_num]
  rw [h.2.2]

/-- C10: the removal operations `removeExcludedFolder` and
`removeExcludedFile` accept either a `file:` URI (parsed to its
filesystem path, with fallback to the literal string when parsing
throws) or a raw path, and in both cases remove exactly the entries
whose normalized form equals the normalized target, leaving the rest
unchanged; the two operations perform the identical list
transformation. -/
theorem remove_accepts_uri_or_path (parse : String → Option String)
    (entries : List String) (value p e : String) :
    (e ∈ removeExcludedFolderL parse entries value ↔
      e ∈ entries ∧ normalizeFsPath e ≠ normalizeFsPath (resolveFsPath parse value))
  ∧ (startsWithFileCI value = true → parse value = some p → startsWithFileCI p = false →
      removeExcludedFolderL parse entries value = removeExcludedFolderL parse entries p)
  ∧ (startsWithFileCI value = true → parse value = none →
      resolveFsPath parse value = value)
  ∧ removeExcludedFileL parse entries value = removeExcludedFolderL parse entries value := by
  refine ⟨?_, ?_, ?_, rfl⟩
  · unfold removeExcludedFolderL
    dsimp only
    rw [List.mem_filter]
    simp
  · intro hv hp hpraw
    have hr1 : resolveFsPath parse value = p := by
      unfold resolveFsPath
      rw [if_pos hv, hp]
      rfl
    have hr2 : resolveFsPath parse p = p := by
      unfold resolveFsPath
      rw [if_neg (by simp [hpraw])]
    unfold removeExcludedFolderL
    rw [hr1, hr2]
  · intro hv hp
    unfold resolveFsPath
    rw [if_pos hv, hp]
    rfl

/-- Witness for C10: removing by the URI `file:///a/b` and by the raw
path `/a/b` act identically on the list `["/a/b", "/c"]`, and the
unrelated entry `/c` is kept. -/
theorem remove_accepts_uri_or_path_witness :
    removeExcludedFolderL (fun s => if s = "file:///a/b" then some "/a/b" else none)
      ["/a/b", "/c"] "file:///a/b"
    = removeExcludedFolderL (fun s => if s = "file:///a/b" then some "/a/b" else none)
      ["/a/b", "/c"] "/a/b"
  ∧ (("/c" : String) ∈ removeExcludedFolderL
      (fun s => if s = "file:///a/b" then some "/a/b" else none)
      ["/a/b", "/c"] "file:///a/b" ↔
      ("/c" : String) ∈ (["/a/b", "/c"] : List String) ∧
        normalizeFsPath "/c" ≠ normalizeFsPath (resolveFsPath
          (fun s => if s = "file:///a/b" then some "/a/b" else none) "file:///a/b")) := by
  have h := remove_accepts_uri_or_path
    (fun s => if s = "file:///a/b" then some "/a/b" else none)
    ["/a/b", "/c"] "file:///a/b" "/a/b" "/c"
  exact ⟨h.2.1 (by decide) (by decide) (by decide), h.1⟩

end SplitOrDie
